import Mathlib

/-!
Verification of the `hazmat` trait-capability splitter.

The repository is a single procedural transformation, `suit`, that rewrites a
trait declaration or a trait-implementation declaration so that every method
gains one trailing `cap` parameter of a marker type named after the trait.
We embed the relevant fragment of the syntax tree (`syn` items) shallowly and
translate `suit`, `augment_trait` and `augment_trait_impl` from
`src/hazmat-macros/src/lib.rs`.
-/

namespace Hazmat

/-- Identifiers are plain strings. -/
abbrev Ident := String

/-- A path segment: an identifier plus optional generic arguments
(`syn::PathSegment`); `none` means no angle-bracketed arguments. -/
structure PathSegment where
  ident : Ident
  arguments : Option String
deriving DecidableEq, Repr

/-- A (possibly qualified) path (`syn::Path`). -/
structure Path where
  leading_colon : Bool
  segments : List PathSegment
deriving DecidableEq, Repr

/-- Types, to the precision the transformation needs (`syn::Type`):
path types, references, and anything else kept verbatim. -/
inductive Ty where
  | path (p : Path)
  | ref (t : Ty)
  | other (s : String)
deriving DecidableEq, Repr

/-- A function argument (`syn::FnArg`): a receiver (`self`, `&self`, ...)
or a typed pattern (`syn::PatType`). -/
inductive FnArg where
  | receiver (s : String)
  | typed (pat : String) (ty : Ty)
deriving DecidableEq, Repr

/-- A method signature (`syn::Signature`): name, generics (kept verbatim),
ordered inputs, optional return type. -/
structure Signature where
  ident : Ident
  generics : String
  inputs : List FnArg
  output : Option Ty
deriving DecidableEq, Repr

/-- A trait method (`syn::TraitItemMethod`): signature plus optional default
body, with attributes kept verbatim. -/
structure TraitItemMethod where
  attrs : List String
  sig : Signature
  defaultBody : Option String
deriving DecidableEq, Repr

/-- An item inside a trait body (`syn::TraitItem`). -/
inductive TraitItem where
  | method (m : TraitItemMethod)
  | constItem (s : String)
  | typeItem (s : String)
  | macroItem (s : String)
  | verbatim (s : String)
deriving DecidableEq, Repr

/-- A trait declaration (`syn::ItemTrait`); fields the transformation never
touches (visibility, generics, supertraits, attributes) are kept verbatim. -/
structure ItemTrait where
  attrs : List String
  vis : String
  ident : Ident
  generics : String
  supertraits : String
  items : List TraitItem
deriving DecidableEq, Repr

/-- A method inside an impl block (`syn::ImplItemMethod`). -/
structure ImplItemMethod where
  attrs : List String
  sig : Signature
  block : String
deriving DecidableEq, Repr

/-- An item inside an impl body (`syn::ImplItem`). -/
inductive ImplItem where
  | method (m : ImplItemMethod)
  | constItem (s : String)
  | typeItem (s : String)
  | macroItem (s : String)
  | verbatim (s : String)
deriving DecidableEq, Repr

/-- An impl block (`syn::ItemImpl`): `trait_ = some p` when the block
implements the trait referenced by path `p`, `none` for an inherent impl. -/
structure ItemImpl where
  attrs : List String
  generics : String
  trait_ : Option Path
  self_ty : Ty
  items : List ImplItem
deriving DecidableEq, Repr

/-- An input item (`syn::Item`), to the precision `suit` inspects it. -/
inductive Item where
  | itemTrait (t : ItemTrait)
  | itemImpl (i : ItemImpl)
  | other (s : String)
deriving DecidableEq, Repr

/-- One output declaration in the emitted token stream. `structDecl` is a
field-list struct declaration (the emitted marker is the zero-field unit
struct); `compileError` is `syn::Error::new_spanned(item, msg)` rendered as
`compile_error!`, carrying the offending item as its span. -/
inductive OutItem where
  | structDecl (attrs : List String) (vis : String) (ident : Ident)
      (fields : List String)
  | itemTrait (t : ItemTrait)
  | itemImpl (i : ItemImpl)
  | compileError (msg : String) (span : Item)
deriving DecidableEq, Repr

/-- Rewrite of one trait item: a method gains the trailing
`cap: #cap_name` argument (`parse_quote!(#cap_name)` is the one-segment,
argument-free path type); every other item is untouched. -/
def augmentTraitItem (cap_name : Ident) : TraitItem → TraitItem
  | TraitItem.method m =>
      TraitItem.method { m with sig := { m.sig with
        inputs := m.sig.inputs ++
          [FnArg.typed "cap" (Ty.path ⟨false, [⟨cap_name, none⟩]⟩)] } }
  | it => it

/-- Function `augment_trait` from `src/hazmat-macros/src/lib.rs`: derive the
capability name by appending `Cap` to the trait identifier, push the `cap`
argument onto each method signature, and emit the `#[non_exhaustive]` public
unit struct followed by the rewritten trait. -/
def augment_trait (t : ItemTrait) : List OutItem :=
  let cap_name := t.ident ++ "Cap"
  let t' : ItemTrait :=
    { t with items := t.items.map (augmentTraitItem cap_name) }
  [OutItem.structDecl ["non_exhaustive"] "pub" cap_name [],
   OutItem.itemTrait t']

/-- The capability path computed inside `augment_trait_impl`: clone the
trait path, pop its last segment, and push the bare identifier
`<last>Cap` (the `Ident`-to-`PathSegment` conversion attaches no generic
arguments). `segments.last().unwrap()` presumes a parsed, nonempty path;
on the empty path we read the trait name as `""`. -/
def capPathOf (trait_path : Path) : Path :=
  let trait_name :=
    ((trait_path.segments.getLast?).map PathSegment.ident).getD ""
  let cap_name := trait_name ++ "Cap"
  { trait_path with
    segments := trait_path.segments.dropLast ++ [⟨cap_name, none⟩] }

/-- Rewrite of one impl item: a method gains the trailing
`cap: #cap_path` argument; every other item is untouched. -/
def augmentImplItem (cap_path : Path) : ImplItem → ImplItem
  | ImplItem.method m =>
      ImplItem.method { m with sig := { m.sig with
        inputs := m.sig.inputs ++
          [FnArg.typed "cap" (Ty.path cap_path)] } }
  | it => it

/-- Function `augment_trait_impl` from `src/hazmat-macros/src/lib.rs`:
derive the
capability path from the implemented trait's path and push the `cap`
argument onto each method; only the rewritten impl is emitted. The source
unwraps `t.trait_` (the caller guarantees it is present); the `none` case
is unreachable from `suit`. -/
def augment_trait_impl (t : ItemImpl) : List OutItem :=
  match t.trait_ with
  | none => []
  | some trait_path =>
      let cap_path := capPathOf trait_path
      let t' : ItemImpl :=
        { t with items := t.items.map (augmentImplItem cap_path) }
      [OutItem.itemImpl t']

/-- The fixed diagnostic message of the error branch of `suit`. -/
def suitErrMsg : String :=
  "hazmat::suit should be applied to traits or trait impls"

/-- The attribute entry point `suit`: dispatch on the shape of the item.
The attribute-argument token stream `_attr` is ignored, as in the source
(`_attr: proc_macro::TokenStream`). A trait goes to `augment_trait`; an
impl with `trait_.is_some()` goes to `augment_trait_impl`; everything else
produces the compile error spanned at the whole item. -/
def suit (_attr : String) (item : Item) : List OutItem :=
  match item with
  | Item.itemTrait t => augment_trait t
  | Item.itemImpl t =>
      if t.trait_.isSome then augment_trait_impl t
      else [OutItem.compileError suitErrMsg item]
  | Item.other _ => [OutItem.compileError suitErrMsg item]

/-- Modelled from the spec: the host toolchain expands each annotated
declaration of a compilation unit independently (spec section 5); each
invocation reads only its own input item. -/
def expandAll (attr : String) (items : List Item) : List (List OutItem) :=
  items.map (suit attr)

/-! ### Concrete fixtures, from `src/tests/simple.rs` -/

/-- The type `Self` as a one-segment path type. -/
def selfTy : Ty := Ty.path ⟨false, [⟨"Self", none⟩]⟩

/-- The signature `fn add_once(self, other: &Self) -> Self`. -/
def addOnceSig : Signature :=
  { ident := "add_once", generics := "",
    inputs := [FnArg.receiver "self", FnArg.typed "other" (Ty.ref selfTy)],
    output := some selfTy }

/-- The trait `pub trait AddOnce` with the single method `add_once`. -/
def addOnceTrait : ItemTrait :=
  { attrs := [], vis := "pub", ident := "AddOnce", generics := "",
    supertraits := "", items := [TraitItem.method ⟨[], addOnceSig, none⟩] }

/-- The block `impl traits::AddOnce for Num` with the one method body. -/
def numImpl : ItemImpl :=
  { attrs := [], generics := "",
    trait_ := some ⟨false, [⟨"traits", none⟩, ⟨"AddOnce", none⟩]⟩,
    self_ty := Ty.path ⟨false, [⟨"Num", none⟩]⟩,
    items := [ImplItem.method ⟨[], addOnceSig, "Self(self.0 + other.0)"⟩] }

/-- An inherent impl block (no trait reference), to exercise the fall-through
to the error branch. -/
def inherentImpl : ItemImpl :=
  { attrs := [], generics := "", trait_ := none,
    self_ty := Ty.path ⟨false, [⟨"Num", none⟩]⟩,
    items := [ImplItem.method ⟨[], addOnceSig, "Self(self.0 + other.0)"⟩] }

/-- The signature `fn f(self)`, used by the generic-trait fixture. -/
def fSig : Signature :=
  { ident := "f", generics := "",
    inputs := [FnArg.receiver "self"], output := none }

/-- An impl of a trait whose path ends in a generic segment, `m::Trait<u8>`,
to exercise the dropping of generic arguments from the capability path. -/
def genericTraitImpl : ItemImpl :=
  { attrs := [], generics := "",
    trait_ := some ⟨false, [⟨"m", none⟩, ⟨"Trait", some "u8"⟩]⟩,
    self_ty := Ty.path ⟨false, [⟨"Num", none⟩]⟩,
    items := [ImplItem.method ⟨[], fSig, "()"⟩] }

/-! ### Helper lemmas (shared across claims) -/

/-- Unfolding of `augment_trait` into the explicit two-item output. -/
theorem augment_trait_eq (t : ItemTrait) :
    augment_trait t =
      [OutItem.structDecl ["non_exhaustive"] "pub" (t.ident ++ "Cap") [],
       OutItem.itemTrait
         { t with items := t.items.map (augmentTraitItem (t.ident ++ "Cap")) }] :=
  rfl

/-- Unfolding of `augment_trait_impl` when the impl names a trait. -/
theorem augment_trait_impl_eq (i : ItemImpl) (tp : Path) (h : i.trait_ = some tp) :
    augment_trait_impl i =
      [OutItem.itemImpl
        { i with items := i.items.map (augmentImplItem (capPathOf tp)) }] := by
  simp [augment_trait_impl, h]

/-- On a trait impl, `suit` delegates to `augment_trait_impl`. -/
theorem suit_impl_eq (a : String) (i : ItemImpl) (tp : Path)
    (h : i.trait_ = some tp) :
    suit a (Item.itemImpl i) = augment_trait_impl i := by
  simp [suit, h]

/-- Lemma: `augmentTraitItem` fixes every non-method trait item. -/
theorem augmentTraitItem_nonmethod (cap : Ident) (it : TraitItem)
    (h : ∀ m, it ≠ TraitItem.method m) : augmentTraitItem cap it = it := by
  cases it with
  | method m => exact absurd rfl (h m)
  | constItem s => rfl
  | typeItem s => rfl
  | macroItem s => rfl
  | verbatim s => rfl

/-- Lemma: `augmentImplItem` fixes every non-method impl item. -/
theorem augmentImplItem_nonmethod (p : Path) (it : ImplItem)
    (h : ∀ m, it ≠ ImplItem.method m) : augmentImplItem p it = it := by
  cases it with
  | method m => exact absurd rfl (h m)
  | constItem s => rfl
  | typeItem s => rfl
  | macroItem s => rfl
  | verbatim s => rfl

/-! ### Claims -/

/-- C7: on the trait `AddOnce` with the single method
`add_once(self, other: &Self) -> Self`, the transformation yields the marker
type `AddOnceCap` followed by the trait whose method signature is
`add_once(self, other: &Self, cap: AddOnceCap) -> Self`. -/
theorem suit_addOnce_scenario :
    suit "" (Item.itemTrait addOnceTrait) =
      [OutItem.structDecl ["non_exhaustive"] "pub" "AddOnceCap" [],
       OutItem.itemTrait
         { attrs := [], vis := "pub", ident := "AddOnce", generics := "",
           supertraits := "",
           items := [TraitItem.method ⟨[],
             { ident := "add_once", generics := "",
               inputs := [FnArg.receiver "self",
                          FnArg.typed "other" (Ty.ref selfTy),
                          FnArg.typed "cap"
                            (Ty.path ⟨false, [⟨"AddOnceCap", none⟩]⟩)],
               output := some selfTy }, none⟩] }] := by
  rfl

/-- C6: on any trait declaration, the output is exactly the public,
non-exhaustive, zero-field marker struct named `<TraitName>Cap`, followed by
the rewritten trait (same name) in that order at the same scope. -/
theorem suit_trait_output_order (a : String) (t : ItemTrait) :
    ∃ t' : ItemTrait,
      suit a (Item.itemTrait t) =
        [OutItem.structDecl ["non_exhaustive"] "pub" (t.ident ++ "Cap") [],
         OutItem.itemTrait t'] ∧
      t'.ident = t.ident :=
  ⟨_, rfl, rfl⟩

/-- C1: on any trait declaration, the output contains the same trait with
the same items positionally: each method gains exactly one trailing
parameter `cap` of the unqualified type `<TraitName>Cap`, non-method items
are untouched, and a sibling marker type named `<TraitName>Cap` is emitted. -/
theorem suit_trait_param_insertion (a : String) (t : ItemTrait) :
    ∃ t' : ItemTrait,
      suit a (Item.itemTrait t) =
        [OutItem.structDecl ["non_exhaustive"] "pub" (t.ident ++ "Cap") [],
         OutItem.itemTrait t'] ∧
      t'.items.length = t.items.length ∧
      (∀ (j : Nat) (m : TraitItemMethod),
        t.items[j]? = some (TraitItem.method m) →
        t'.items[j]? = some (TraitItem.method { m with sig := { m.sig with
          inputs := m.sig.inputs ++
            [FnArg.typed "cap"
              (Ty.path ⟨false, [⟨t.ident ++ "Cap", none⟩]⟩)] } })) ∧
      (∀ (j : Nat) (it : TraitItem),
        t.items[j]? = some it → (∀ m, it ≠ TraitItem.method m) →
        t'.items[j]? = some it) := by
  refine ⟨{ t with items := t.items.map (augmentTraitItem (t.ident ++ "Cap")) },
    rfl, ?_, ?_, ?_⟩
  · simp
  · intro j m hm
    show (t.items.map (augmentTraitItem (t.ident ++ "Cap")))[j]? = _
    rw [List.getElem?_map, hm]
    rfl
  · intro j it hit hne
    show (t.items.map (augmentTraitItem (t.ident ++ "Cap")))[j]? = some it
    rw [List.getElem?_map, hit]
    simp [augmentTraitItem_nonmethod _ it hne]

/-- Witness for C1 at the `AddOnce` fixture. -/
theorem suit_trait_param_insertion_witness :
    ∃ t' : ItemTrait,
      suit "" (Item.itemTrait addOnceTrait) =
        [OutItem.structDecl ["non_exhaustive"] "pub" "AddOnceCap" [],
         OutItem.itemTrait t'] ∧
      t'.items[0]? = some (TraitItem.method ⟨[],
        { addOnceSig with inputs := addOnceSig.inputs ++
            [FnArg.typed "cap"
              (Ty.path ⟨false, [⟨"AddOnceCap", none⟩]⟩)] }, none⟩) := by
  obtain ⟨t', h1, -, h3, -⟩ := suit_trait_param_insertion "" addOnceTrait
  exact ⟨t', h1, h3 0 ⟨[], addOnceSig, none⟩ rfl⟩

/-- C2: on any impl of a trait referenced by path `tp` (last segment
`seg`), the output is exactly the rewritten impl — no auxiliary type — and
each method's parameter list is extended by exactly one trailing `cap`
parameter typed by `tp` with its last segment replaced by `<seg>Cap`. -/
theorem suit_impl_param_mirroring (a : String) (i : ItemImpl) (tp : Path)
    (seg : PathSegment) (h : i.trait_ = some tp)
    (hseg : tp.segments.getLast? = some seg) :
    capPathOf tp =
      ⟨tp.leading_colon,
       tp.segments.dropLast ++ [⟨seg.ident ++ "Cap", none⟩]⟩ ∧
    ∃ i' : ItemImpl,
      suit a (Item.itemImpl i) = [OutItem.itemImpl i'] ∧
      i'.trait_ = i.trait_ ∧
      i'.items.length = i.items.length ∧
      (∀ (j : Nat) (m : ImplItemMethod),
        i.items[j]? = some (ImplItem.method m) →
        i'.items[j]? = some (ImplItem.method { m with sig := { m.sig with
          inputs := m.sig.inputs ++
            [FnArg.typed "cap" (Ty.path (capPathOf tp))] } })) := by
  constructor
  · simp [capPathOf, hseg]
  refine ⟨{ i with items := i.items.map (augmentImplItem (capPathOf tp)) },
    ?_, rfl, ?_, ?_⟩
  · rw [suit_impl_eq a i tp h, augment_trait_impl_eq i tp h]
  · simp
  · intro j m hm
    show (i.items.map (augmentImplItem (capPathOf tp)))[j]? = _
    rw [List.getElem?_map, hm]
    rfl

/-- Witness for C2 at the `impl traits::AddOnce for Num` fixture. -/
theorem suit_impl_param_mirroring_witness :
    capPathOf ⟨false, [⟨"traits", none⟩, ⟨"AddOnce", none⟩]⟩ =
      ⟨false, [⟨"traits", none⟩, ⟨"AddOnceCap", none⟩]⟩ ∧
    ∃ i' : ItemImpl,
      suit "" (Item.itemImpl numImpl) = [OutItem.itemImpl i'] ∧
      i'.items[0]? = some (ImplItem.method ⟨[],
        { addOnceSig with inputs := addOnceSig.inputs ++
            [FnArg.typed "cap" (Ty.path
              ⟨false, [⟨"traits", none⟩, ⟨"AddOnceCap", none⟩]⟩)] },
        "Self(self.0 + other.0)"⟩) := by
  obtain ⟨h0, i', h1, -, -, h4⟩ := suit_impl_param_mirroring ""
    numImpl ⟨false, [⟨"traits", none⟩, ⟨"AddOnce", none⟩]⟩
    ⟨"AddOnce", none⟩ rfl rfl
  exact ⟨h0, i', h1, h4 0 ⟨[], addOnceSig, "Self(self.0 + other.0)"⟩ rfl⟩

/-- C3 counterexample: on a non-trait, non-impl item the emitted diagnostic
does not carry the message the claim states; the actual message is
"hazmat::suit should be applied to traits or trait impls". -/
theorem suit_reject_msg_counterexample :
    suit "" (Item.other "fn main") ≠
      [OutItem.compileError
        "this transformation should be applied to traits or trait implementations"
        (Item.other "fn main")] := by
  decide

/-- C3 (amended): on any item that is neither a trait nor an impl of a
named trait, `suit` emits exactly one compile error, spanned at the
offending item, with the fixed message
"hazmat::suit should be applied to traits or trait impls". -/
theorem suit_rejects_unsupported (a : String) (item : Item)
    (hTrait : ∀ t, item ≠ Item.itemTrait t)
    (hImpl : ∀ i, item = Item.itemImpl i → i.trait_ = none) :
    suit a item = [OutItem.compileError suitErrMsg item] := by
  cases item with
  | itemTrait t => exact absurd rfl (hTrait t)
  | itemImpl i =>
      have hnone := hImpl i rfl
      simp [suit, hnone]
  | other s => rfl

/-- Witness for C3 (amended) at a free-function item. -/
theorem suit_rejects_unsupported_witness :
    suit "" (Item.other "fn main") =
      [OutItem.compileError suitErrMsg (Item.other "fn main")] :=
  suit_rejects_unsupported "" (Item.other "fn main")
    (fun _ h => Item.noConfusion h) (fun _ h => Item.noConfusion h)

/-- C4: an inherent impl block (no trait reference) falls through to the
error branch: `suit` produces the diagnostic, not a rewritten declaration. -/
theorem suit_inherent_impl_rejected (a : String) (i : ItemImpl)
    (h : i.trait_ = none) :
    suit a (Item.itemImpl i) =
      [OutItem.compileError suitErrMsg (Item.itemImpl i)] := by
  simp [suit, h]

/-- Witness for C4 at the inherent `impl Num` fixture. -/
theorem suit_inherent_impl_rejected_witness :
    suit "" (Item.itemImpl inherentImpl) =
      [OutItem.compileError suitErrMsg (Item.itemImpl inherentImpl)] :=
  suit_inherent_impl_rejected "" inherentImpl rfl

/-- C5: in both branches the derived capability name is exactly the
trait's simple name followed by the literal suffix `Cap`: the marker struct
emitted by `augment_trait` is named `<ident>Cap`, and the last segment of
the capability path used by the impl branch is `<last segment>Cap`. -/
theorem cap_name_derivation :
    (∀ t : ItemTrait, ∃ rest, augment_trait t =
        OutItem.structDecl ["non_exhaustive"] "pub" (t.ident ++ "Cap") []
          :: rest) ∧
    (∀ (tp : Path) (seg : PathSegment), tp.segments.getLast? = some seg →
        ((capPathOf tp).segments.getLast?).map PathSegment.ident =
          some (seg.ident ++ "Cap")) := by
  constructor
  · intro t
    exact ⟨_, rfl⟩
  · intro tp seg hseg
    simp [capPathOf, hseg, List.getLast?_concat]

/-- An empty trait with the single-letter name `A`. -/
def traitA : ItemTrait :=
  { attrs := [], vis := "", ident := "A", generics := "",
    supertraits := "", items := [] }

/-- Witness for C5 at a single-letter trait name and a qualified path. -/
theorem cap_name_derivation_witness :
    (∃ rest, augment_trait traitA =
      OutItem.structDecl ["non_exhaustive"] "pub" "ACap" [] :: rest) ∧
    ((capPathOf ⟨false, [⟨"m", none⟩, ⟨"_t", none⟩]⟩).segments.getLast?).map
        PathSegment.ident = some "_tCap" :=
  ⟨cap_name_derivation.1 _, cap_name_derivation.2 _ ⟨"_t", none⟩ rfl⟩

/-- C8: `suit` is a pure function of the annotated item alone: the
attribute-argument stream has no influence, and expanding a compilation
unit is position-independent — each declaration's output is a function of
that declaration only, so two declarations expand to the same outputs in
either order. -/
theorem suit_pure_independent :
    (∀ (a b : String) (item : Item), suit a item = suit b item) ∧
    (∀ (a : String) (l : List Item) (j : Nat),
        (expandAll a l)[j]? = (l[j]?).map (suit a)) ∧
    (∀ (a : String) (i₁ i₂ : Item),
        expandAll a [i₁, i₂] = [suit a i₁, suit a i₂] ∧
        expandAll a [i₂, i₁] = [suit a i₂, suit a i₁]) := by
  refine ⟨fun a b item => rfl, fun a l j => List.getElem?_map (suit a) l j, ?_⟩
  intro a i₁ i₂
  exact ⟨rfl, rfl⟩

/-- C9: the transformation changes nothing but method parameter lists. In
the trait branch the rewritten trait keeps its attributes, visibility,
name, generics and supertraits; in the impl branch the rewritten impl
keeps its attributes, generics, trait path and self type. In both, items
are preserved positionally, non-method items verbatim, and each method
keeps its attributes, name, generics, return type and body, its original
parameters in order, with exactly one parameter appended. -/
theorem suit_frame_preservation (t : ItemTrait) (i : ItemImpl) :
    (∀ (x : OutItem) (t' : ItemTrait),
      augment_trait t = [x, OutItem.itemTrait t'] →
      t'.attrs = t.attrs ∧ t'.vis = t.vis ∧ t'.ident = t.ident ∧
      t'.generics = t.generics ∧ t'.supertraits = t.supertraits ∧
      t'.items.length = t.items.length ∧
      (∀ (j : Nat) (it : TraitItem),
        t.items[j]? = some it → (∀ m, it ≠ TraitItem.method m) →
        t'.items[j]? = some it) ∧
      (∀ (j : Nat) (m : TraitItemMethod),
        t.items[j]? = some (TraitItem.method m) →
        ∃ m', t'.items[j]? = some (TraitItem.method m') ∧
          m'.attrs = m.attrs ∧ m'.defaultBody = m.defaultBody ∧
          m'.sig.ident = m.sig.ident ∧ m'.sig.generics = m.sig.generics ∧
          m'.sig.output = m.sig.output ∧
          ∃ extra, m'.sig.inputs = m.sig.inputs ++ [extra])) ∧
    (∀ i' : ItemImpl,
      augment_trait_impl i = [OutItem.itemImpl i'] →
      i'.attrs = i.attrs ∧ i'.generics = i.generics ∧
      i'.trait_ = i.trait_ ∧ i'.self_ty = i.self_ty ∧
      i'.items.length = i.items.length ∧
      (∀ (j : Nat) (it : ImplItem),
        i.items[j]? = some it → (∀ m, it ≠ ImplItem.method m) →
        i'.items[j]? = some it) ∧
      (∀ (j : Nat) (m : ImplItemMethod),
        i.items[j]? = some (ImplItem.method m) →
        ∃ m', i'.items[j]? = some (ImplItem.method m') ∧
          m'.attrs = m.attrs ∧ m'.block = m.block ∧
          m'.sig.ident = m.sig.ident ∧ m'.sig.generics = m.sig.generics ∧
          m'.sig.output = m.sig.output ∧
          ∃ extra, m'.sig.inputs = m.sig.inputs ++ [extra])) := by
  constructor
  · intro x t' heq
    rw [augment_trait_eq] at heq
    obtain ⟨-, ht⟩ := List.cons_eq_cons.mp heq
    obtain ⟨ht, -⟩ := List.cons_eq_cons.mp ht
    injection ht with ht
    subst ht
    refine ⟨rfl, rfl, rfl, rfl, rfl, by simp, ?_, ?_⟩
    · intro j it hit hne
      show (t.items.map (augmentTraitItem (t.ident ++ "Cap")))[j]? = some it
      rw [List.getElem?_map, hit]
      simp [augmentTraitItem_nonmethod _ it hne]
    · intro j m hm
      refine ⟨{ m with sig := { m.sig with inputs := m.sig.inputs ++
          [FnArg.typed "cap"
            (Ty.path ⟨false, [⟨t.ident ++ "Cap", none⟩]⟩)] } },
        ?_, rfl, rfl, rfl, rfl, rfl, ⟨_, rfl⟩⟩
      show (t.items.map (augmentTraitItem (t.ident ++ "Cap")))[j]? = _
      rw [List.getElem?_map, hm]
      rfl
  · intro i' heq
    cases htr : i.trait_ with
    | none =>
        have hnil : augment_trait_impl i = [] := by
          simp [augment_trait_impl, htr]
        rw [hnil] at heq
        exact List.noConfusion heq
    | some tp =>
        rw [augment_trait_impl_eq i tp htr] at heq
        obtain ⟨ht, -⟩ := List.cons_eq_cons.mp heq
        injection ht with ht
        subst ht
        refine ⟨rfl, rfl, htr, rfl, by simp, ?_, ?_⟩
        · intro j it hit hne
          show (i.items.map (augmentImplItem (capPathOf tp)))[j]? = some it
          rw [List.getElem?_map, hit]
          simp [augmentImplItem_nonmethod _ it hne]
        · intro j m hm
          refine ⟨{ m with sig := { m.sig with inputs := m.sig.inputs ++
              [FnArg.typed "cap" (Ty.path (capPathOf tp))] } },
            ?_, rfl, rfl, rfl, rfl, rfl, ⟨_, rfl⟩⟩
          show (i.items.map (augmentImplItem (capPathOf tp)))[j]? = _
          rw [List.getElem?_map, hm]
          rfl

/-- Witness for C9 at the `AddOnce` trait and the `Num` impl fixtures. -/
theorem suit_frame_preservation_witness :
    (∃ (x : OutItem) (t' : ItemTrait),
      augment_trait addOnceTrait = [x, OutItem.itemTrait t'] ∧
      t'.vis = "pub" ∧ t'.ident = "AddOnce") ∧
    (∃ i' : ItemImpl,
      augment_trait_impl numImpl = [OutItem.itemImpl i'] ∧
      i'.trait_ = numImpl.trait_ ∧
      i'.self_ty = Ty.path ⟨false, [⟨"Num", none⟩]⟩) := by
  obtain ⟨h1, h2⟩ := suit_frame_preservation addOnceTrait numImpl
  obtain ⟨-, -, hid, -, -, -, -, -⟩ := h1 _ _ (augment_trait_eq addOnceTrait)
  obtain ⟨-, -, htr, hself, -, -, -⟩ := h2 _
    (augment_trait_impl_eq numImpl ⟨false, [⟨"traits", none⟩, ⟨"AddOnce", none⟩]⟩ rfl)
  exact ⟨⟨_, _, augment_trait_eq addOnceTrait, rfl, hid⟩,
         ⟨_, augment_trait_impl_eq numImpl _ rfl, htr, hself⟩⟩

/-- C10: in the impl branch the capability path's final segment is the bare
identifier `<Name>Cap` with no generic arguments — any generic arguments on
the trait path's last segment are dropped — while the leading qualifier and
all earlier segments are preserved; each rewritten method's `cap` parameter
is typed by exactly that path. -/
theorem cap_path_drops_generic_args (i : ItemImpl) (tp : Path)
    (h : i.trait_ = some tp) :
    (capPathOf tp).leading_colon = tp.leading_colon ∧
    (capPathOf tp).segments.dropLast = tp.segments.dropLast ∧
    (∀ seg : PathSegment, tp.segments.getLast? = some seg →
        (capPathOf tp).segments.getLast? =
          some ⟨seg.ident ++ "Cap", none⟩) ∧
    (∀ (j : Nat) (m : ImplItemMethod),
        i.items[j]? = some (ImplItem.method m) →
        ∃ i' : ItemImpl, augment_trait_impl i = [OutItem.itemImpl i'] ∧
          i'.items[j]? = some (ImplItem.method { m with sig := { m.sig with
            inputs := m.sig.inputs ++
              [FnArg.typed "cap" (Ty.path (capPathOf tp))] } })) := by
  refine ⟨rfl, ?_, ?_, ?_⟩
  · simp [capPathOf, List.dropLast_concat]
  · intro seg hseg
    simp [capPathOf, hseg, List.getLast?_concat]
  · intro j m hm
    refine ⟨_, augment_trait_impl_eq i tp h, ?_⟩
    show (i.items.map (augmentImplItem (capPathOf tp)))[j]? = _
    rw [List.getElem?_map, hm]
    rfl

/-- Witness for C10 at the `impl m::Trait<u8> for Num` fixture: the
generic argument `u8` is dropped from the capability path. -/
theorem cap_path_drops_generic_args_witness :
    (capPathOf ⟨false, [⟨"m", none⟩, ⟨"Trait", some "u8"⟩]⟩).segments.getLast? =
      some ⟨"TraitCap", none⟩ ∧
    ∃ i' : ItemImpl,
      augment_trait_impl genericTraitImpl = [OutItem.itemImpl i'] ∧
      i'.items[0]? = some (ImplItem.method ⟨[],
        { fSig with inputs := fSig.inputs ++
            [FnArg.typed "cap" (Ty.path
              ⟨false, [⟨"m", none⟩, ⟨"TraitCap", none⟩]⟩)] }, "()"⟩) := by
  obtain ⟨-, -, h3, h4⟩ := cap_path_drops_generic_args genericTraitImpl
    ⟨false, [⟨"m", none⟩, ⟨"Trait", some "u8"⟩]⟩ rfl
  exact ⟨h3 ⟨"Trait", some "u8"⟩ rfl, h4 0 ⟨[], fSig, "()"⟩ rfl⟩

end Hazmat
